import Mathlib

/-!
Verification of the rusgram site-generator tex-to-HTML converter: a shallow
embedding of `src/converter.py` (the preprocessing and postprocessing rule
tables, the block segmenter, and the stateful tree-to-fragment walker with
its hierarchical section counters, label registry and footnote collector),
together with theorems settling the specification claims about it.
-/

/-- Characters matched by the character class of the segmentation regex on
line 109 of the source (`[\n\r]`). -/
def isBreak (c : Char) : Bool :=
  c == '\n' || c == '\r'

/-- ASCII whitespace removed by Python `str.strip`. -/
def isPySpace (c : Char) : Bool :=
  c == ' ' || c == '\t' || c == '\n' || c == '\r' || c == '\x0b' || c == '\x0c'

/-- Python `str.strip` on a character list. -/
def stripChars (cs : List Char) : List Char :=
  ((cs.dropWhile isPySpace).reverse.dropWhile isPySpace).reverse

/-- Python `str.strip` on strings. -/
def stripString (s : String) : String :=
  (stripChars s.toList).asString

/-- Python `str.replace`: rewrite every non-overlapping occurrence of `pat`
(scanning left to right, never rescanning replacement text) to `repl`.
The converter's rule tables contain no empty pattern; an empty pattern is
treated as matching nowhere. -/
def replaceAllFuel (pat repl : List Char) : Nat → List Char → List Char
  | 0, cs => cs
  | _ + 1, [] => []
  | fuel + 1, c :: rest =>
    if pat.isPrefixOf (c :: rest) && !pat.isEmpty then
      repl ++ replaceAllFuel pat repl fuel (rest.drop (pat.length - 1))
    else
      c :: replaceAllFuel pat repl fuel rest

/-- Python `str.replace` proper: the scan consumes at least one character
per step, so the input length bounds the number of steps. -/
def replaceAll (pat repl cs : List Char) : List Char :=
  replaceAllFuel pat repl cs.length cs

def countOccurFuel (pat : List Char) : Nat → List Char → Nat
  | 0, _ => 0
  | _ + 1, [] => 0
  | fuel + 1, c :: rest =>
    if pat.isPrefixOf (c :: rest) && !pat.isEmpty then
      1 + countOccurFuel pat fuel (rest.drop (pat.length - 1))
    else
      countOccurFuel pat fuel rest

/-- Count non-overlapping occurrences of `pat` in a character list, with the
same left-to-right scanning discipline as `replaceAll`. -/
def countOccur (pat cs : List Char) : Nat :=
  countOccurFuel pat cs.length cs

/-- Apply an ordered list of literal substring-replacement rules, one full
left-to-right pass per rule, in table order (Python iterates the dict in
insertion order). -/
def applyRules (rules : List (String × String)) (txt : List Char) : List Char :=
  rules.foldl (fun t r => replaceAll r.1.toList r.2.toList t) txt

/-- The `preprocessing_dict` table from the source (lines 371-390), in its
declared order. -/
def preprocessingRules : List (String × String) :=
  [("\\textless\x7b\x7d ", "&lt;_"),
   ("\\textless\x7b\x7d", "&lt;"),
   ("\\textless ", "&lt;_"),
   ("\\textless", "&lt;"),
   (" \\textgreater\x7b\x7d", "_&gt;"),
   ("\\textgreater\x7b\x7d", "&gt;"),
   (" \\textgreater", "_&gt;"),
   ("\\textgreater", "&gt;"),
   ("\\ldots\x7b\x7d", "…"),
   ("\\ldots", "…"),
   ("\\_", "_"),
   ("\\#", "#"),
   ("---", "—"),
   (" -- ", " — "),
   ("--", "–"),
   ("~", "&nbsp;"),
   (" —", "&nbsp;—")]

/-- `preprocess` from the source: the rule table applied in order. -/
def preprocess (s : String) : String :=
  (applyRules preprocessingRules s.toList).asString

/-- The `postprocessing_dict` table from the source (lines 397-432), in its
declared order.  The straight-apostrophe pattern is written via its
character code. -/
def postprocessingRules : List (String × String) :=
  [("> .", ">."),
   ("&gt; .", "&gt;."),
   ("> »", ">»"),
   ("&gt; »", "&gt;»"),
   ("> ,", ">,"),
   ("&gt; ,", "&gt;,"),
   ("> ;", ">;"),
   ("&gt; ;", "&gt;;"),
   ("> ?", ">?"),
   ("&gt; ?", "&gt;?"),
   ("> !", ">!"),
   ("&gt; !", "&gt;!"),
   ("> )", ">)"),
   ("&gt; )", "&gt;)"),
   ("( <", "(<"),
   ("( &lt;", "(&lt;"),
   ("* <", "*<"),
   ("* &lt;", "*&lt;"),
   ("`", "‘"),
   ((Char.ofNat 39).toString, "’"),
   ("&nbsp; ", "&nbsp;"),
   ("[</span> ", "[</span>"),
   (" <span class=\"BraceGroup\">]", "<span class=\"BraceGroup\">]"),
   (" <span id=\"foot", "<span id=\"foot"),
   ("[ ", "["),
   (" ]", "]"),
   ("( ", "("),
   (" )", ")"),
   ("&lt; ", "&lt;"),
   (" &gt;", "&gt;"),
   ("<sup>?</sup> ", "<sup>?</sup>"),
   ("&lt;_", "&lt; "),
   ("_&gt;", " &gt;")]

/-- `postprocess` from the source: the rule table applied in order. -/
def postprocess (s : String) : String :=
  (applyRules postprocessingRules s.toList).asString

/-- Dropping a prefix by predicate never lengthens a list. -/
theorem dropWhile_length_le (p : Char → Bool) :
    ∀ l : List Char, (l.dropWhile p).length ≤ l.length := by
  intro l
  induction l with
  | nil => simp [List.dropWhile]
  | cons c rest ih =>
    simp only [List.dropWhile]
    cases p c
    · simp
    · simp
      omega

/-- Worker for the block segmenter.  It models
`re.split(r'[\n\r]{2,}', text)`: a maximal run of two or more break
characters ends the current block (accumulated reversed in `acc`) and is
consumed entirely; a lone break character stays inside the block. -/
def splitBlocksAux (acc : List Char) : List Char → List (List Char)
  | [] => [acc.reverse]
  | [c] => [(c :: acc).reverse]
  | c :: c2 :: rest2 =>
    if isBreak c && isBreak c2 then
      acc.reverse :: splitBlocksAux [] (rest2.dropWhile isBreak)
    else
      splitBlocksAux (c :: acc) (c2 :: rest2)
termination_by cs => cs.length
decreasing_by
  all_goals simp only [List.length_cons]
  · have h := dropWhile_length_le isBreak rest2
    omega
  · omega

/-- The block segmenter from line 109 of the source:
`re.split(r'[\n\r]{2,}', ...)`. -/
def splitBlocks (cs : List Char) : List (List Char) :=
  splitBlocksAux [] cs

/-- The segmentation performed by `Tex2HTMLConverter.__init__`:
preprocess, then split into blocks. -/
def segmentTex (s : String) : List String :=
  (splitBlocks (preprocess s).toList).map List.asString

/-- Python `int(...)` on the strings fed to it by the enumerate handler:
a non-empty all-digit literal parses, anything else raises. -/
def parseNat (s : String) : Option Nat :=
  if !s.toList.isEmpty && s.toList.all Char.isDigit then
    some (s.toList.foldl (fun acc c => acc * 10 + (c.toNat - 48)) 0)
  else
    none

/-- A value held by `last_generated_label` or stored in
`label_replacement_dict`.  The Python attribute starts as `None`, is set to
an id string by the section and subsection handlers, and to a bare integer
by the subsubsection handler. -/
inductive RegVal where
  | noneVal : RegVal
  | str (s : String) : RegVal
  | num (n : Nat) : RegVal
deriving DecidableEq

/-- A parsed markup node as delivered by the external parser: a text leaf,
or a named element with its argument nodes and its ordered contents. -/
inductive TexNode where
  | text (s : String) : TexNode
  | elem (name : String) (args : List TexNode) (contents : List TexNode) : TexNode

/-- The element name (text leaves never reach a name lookup in the code). -/
def TexNode.name : TexNode → String
  | .text _ => ""
  | .elem n _ _ => n

/-- The ordered contents of a node (`node.contents` in the source). -/
def TexNode.nodeContents : TexNode → List TexNode
  | .text _ => []
  | .elem _ _ c => c

/-- The argument nodes of a node (`node.args` in the source). -/
def TexNode.nodeArgs : TexNode → List TexNode
  | .text _ => []
  | .elem _ a _ => a

/-- Whether a node is a text leaf. -/
def isTextLeaf : TexNode → Bool
  | .text _ => true
  | .elem _ _ _ => false

/-- `node.children` in the source: the element children only, text leaves
filtered out. -/
def elemChildren (l : List TexNode) : List TexNode :=
  l.filter (fun n => !isTextLeaf n)

mutual

/-- All text fragments of a node in order (`node.text` in the source). -/
def textsOfNode : TexNode → List String
  | .text s => [s]
  | .elem _ _ contents => textsOfList contents

/-- All text fragments of a node list in order. -/
def textsOfList : List TexNode → List String
  | [] => []
  | n :: rest => textsOfNode n ++ textsOfList rest

end

/-- The mutable conversion state of `Tex2HTMLConverter`: the seven
counters, the collected footnote fragments, the label registry and the
last generated id. -/
structure ConvState where
  sectionCounter : Nat
  subsectionCounter : Nat
  subsubsectionCounter : Nat
  paragraphCounter : Nat
  exampleCounter : Nat
  figureCounter : Nat
  tableCounter : Nat
  footnotes : List String
  labelReplacementDict : List (String × RegVal)
  lastGeneratedLabel : RegVal
deriving DecidableEq

/-- The state set up in `__init__`: every counter at 1, no footnotes, an
empty registry, and `None` as the "no id yet" sentinel. -/
def initState : ConvState :=
  { sectionCounter := 1
    subsectionCounter := 1
    subsubsectionCounter := 1
    paragraphCounter := 1
    exampleCounter := 1
    figureCounter := 1
    tableCounter := 1
    footnotes := []
    labelReplacementDict := []
    lastGeneratedLabel := RegVal.noneVal }

/-- Python dict assignment `d[k] = v`: replace the value in place if the
key exists, otherwise append the new binding. -/
def dictInsert (k : String) (v : RegVal) : List (String × RegVal) → List (String × RegVal)
  | [] => [(k, v)]
  | (k', v') :: rest => if k' == k then (k, v) :: rest else (k', v') :: dictInsert k v rest

/-- Python dict lookup `d[k]`. -/
def dictFind (k : String) : List (String × RegVal) → Option RegVal
  | [] => none
  | (k', v) :: rest => if k' == k then some v else dictFind k rest

/-- `__start_new_subsubsection` (line 125): reset the paragraph counter. -/
def startNewSubsubsection (st : ConvState) : ConvState :=
  { st with paragraphCounter := 1 }

/-- `__start_new_subsection` (line 121): reset the subsubsection counter,
then everything below it. -/
def startNewSubsection (st : ConvState) : ConvState :=
  startNewSubsubsection { st with subsubsectionCounter := 1 }

/-- `__start_new_section` (line 117): reset the subsection counter, then
everything below it. -/
def startNewSection (st : ConvState) : ConvState :=
  startNewSubsection { st with subsectionCounter := 1 }

/-- The numbering actions of an unstarred `section` (lines 240-244):
allocate the ordinal, compose the id, record it as the last generated
label, advance the counter and reset the descendant counters.  Returns
the composed id together with the updated state. -/
def sectionStep (st : ConvState) : String × ConvState :=
  let sectionNo := st.sectionCounter
  let sectionId := "section-" ++ Nat.repr sectionNo
  (sectionId,
    startNewSection
      { st with
        lastGeneratedLabel := RegVal.str sectionId
        sectionCounter := sectionNo + 1 })

/-- The numbering actions of an unstarred `subsection` (lines 257-261). -/
def subsectionStep (st : ConvState) : String × ConvState :=
  let subsectionNo := st.subsectionCounter
  let subsectionId :=
    "subsection-" ++ Nat.repr (st.sectionCounter - 1) ++ "." ++ Nat.repr subsectionNo
  (subsectionId,
    startNewSubsection
      { st with
        lastGeneratedLabel := RegVal.str subsectionId
        subsectionCounter := subsectionNo + 1 })

/-- The numbering actions of an unstarred `subsubsection` (lines 274-278).
Unlike its two siblings, line 276 of the source stores the bare ordinal,
not the composed id string, as the last generated label. -/
def subsubsectionStep (st : ConvState) : String × ConvState :=
  let subsubsectionNo := st.subsubsectionCounter
  let subsubsectionId :=
    "subsubsection-" ++ Nat.repr (st.sectionCounter - 1) ++ "." ++
      Nat.repr (st.subsectionCounter - 1) ++ "." ++ Nat.repr subsubsectionNo
  (subsubsectionId,
    startNewSubsubsection
      { st with
        lastGeneratedLabel := RegVal.num subsubsectionNo
        subsubsectionCounter := subsubsectionNo + 1 })

/-- Join fragments with single spaces (`' '.join(...)` in the source). -/
def joinSpace (l : List String) : String :=
  String.intercalate " " l

/-- The inline anchor emitted for footnote ordinal `n` (line 208). -/
def footnoteAnchor (n : Nat) : String :=
  "<span id=\"footnoteanchor" ++ Nat.repr n ++ "\"><sup><a href=\"#footnote" ++
    Nat.repr n ++ "\">" ++ Nat.repr n ++ "</a></sup></span>"

/-- The collected body fragment for footnote ordinal `n` (line 210). -/
def footnoteBody (n : Nat) (inner : String) : String :=
  "<div id=\"footnote" ++ Nat.repr n ++ "\" class=\"footnote\"><sup><a href=\"#footnoteanchor" ++
    Nat.repr n ++ "\">" ++ Nat.repr n ++ "</a></sup> " ++ inner ++ "</div>"

mutual

/-- The loop of `__process_text_tree` (lines 193-234) over a content list:
text leaves append their stripped text, elements are recursively expanded
(side effects included) and then dispatched on their name.  One fuel unit
is consumed per call; exhausted fuel models non-termination, and `none`
propagates a Python exception. -/
def walkNodes : Nat → ConvState → List TexNode → Option (List String × ConvState)
  | 0, _, _ => none
  | _ + 1, st, [] => some ([], st)
  | fuel + 1, st, n :: rest =>
    match walkOne fuel st n with
    | none => none
    | some (out1, st1) =>
      match walkNodes fuel st1 rest with
      | none => none
      | some (out2, st2) => some (out1 ++ out2, st2)

/-- One iteration of `__process_text_tree`: the element case first walks
the node's contents into a local buffer (keeping all side effects), then
dispatches on the node name exactly as the elif chain on lines 202-234
does.  The sectioning branches discard the buffer and walk the node a
second time through the matching handler. -/
def walkOne : Nat → ConvState → TexNode → Option (List String × ConvState)
  | 0, _, _ => none
  | _ + 1, st, .text s => some ([stripString s], st)
  | fuel + 1, st, .elem nm _ contents =>
    match walkNodes fuel st contents with
    | none => none
    | some (tmp, st1) =>
      if nm == "label" then
        match (textsOfList contents).head? with
        | none => none
        | some key =>
          some ([],
            { st1 with
              labelReplacementDict := dictInsert key st1.lastGeneratedLabel st1.labelReplacementDict })
      else if nm == "footnote" then
        let footnoteNo := st1.footnotes.length + 1
        some ([footnoteAnchor footnoteNo],
          { st1 with footnotes := st1.footnotes ++ [footnoteBody footnoteNo (joinSpace tmp)] })
      else if nm == "textsuperscript" then
        some (["<sup>" ++ joinSpace tmp ++ "</sup>"], st1)
      else if nm == "textsubscript" then
        some (["<sub>" ++ joinSpace tmp ++ "</sub>"], st1)
      else if nm == "textbackslash" then
        some (["\\"], st1)
      else if nm == "section" then
        (sectionHandler fuel st1 contents false).map (fun p => ([p.1], p.2))
      else if nm == "section*" then
        (sectionHandler fuel st1 contents true).map (fun p => ([p.1], p.2))
      else if nm == "subsection" then
        (subsectionHandler fuel st1 contents false).map (fun p => ([p.1], p.2))
      else if nm == "subsection*" then
        (subsectionHandler fuel st1 contents true).map (fun p => ([p.1], p.2))
      else if nm == "subsubsection" then
        (subsubsectionHandler fuel st1 contents false).map (fun p => ([p.1], p.2))
      else if nm == "subsubsection*" then
        (subsubsectionHandler fuel st1 contents true).map (fun p => ([p.1], p.2))
      else
        some (["<span class=\"" ++ nm ++ "\">" ++ joinSpace tmp ++ "</span>"], st1)

/-- `Tex2HTMLConverter.section` (lines 238-253), applied to the node's
contents.  The unstarred variant performs the numbering step before
walking the contents. -/
def sectionHandler : Nat → ConvState → List TexNode → Bool → Option (String × ConvState)
  | 0, _, _, _ => none
  | fuel + 1, st, contents, starred =>
    if starred then
      match walkNodes fuel st contents with
      | none => none
      | some (tmp, st1) =>
        some ("<div class=\"section\">" ++ joinSpace tmp ++ "</div>", st1)
    else
      let step := sectionStep st
      match walkNodes fuel step.2 contents with
      | none => none
      | some (tmp, st1) =>
        some ("<div class=\"section\" id=\"" ++ step.1 ++ "\">" ++
          Nat.repr st.sectionCounter ++ " " ++ joinSpace tmp ++ "</div>", st1)

/-- `Tex2HTMLConverter.subsection` (lines 255-270). -/
def subsectionHandler : Nat → ConvState → List TexNode → Bool → Option (String × ConvState)
  | 0, _, _, _ => none
  | fuel + 1, st, contents, starred =>
    if starred then
      match walkNodes fuel st contents with
      | none => none
      | some (tmp, st1) =>
        some ("<div class=\"subsection\">" ++ joinSpace tmp ++ "</div>", st1)
    else
      let step := subsectionStep st
      match walkNodes fuel step.2 contents with
      | none => none
      | some (tmp, st1) =>
        some ("<div class=\"subsection\" id=\"" ++ step.1 ++ "\">" ++
          Nat.repr (st.sectionCounter - 1) ++ "." ++ Nat.repr st.subsectionCounter ++ " " ++
          joinSpace tmp ++ "</div>", st1)

/-- `Tex2HTMLConverter.subsubsection` (lines 272-287). -/
def subsubsectionHandler : Nat → ConvState → List TexNode → Bool → Option (String × ConvState)
  | 0, _, _, _ => none
  | fuel + 1, st, contents, starred =>
    if starred then
      match walkNodes fuel st contents with
      | none => none
      | some (tmp, st1) =>
        some ("<div class=\"subsubsection\">" ++ joinSpace tmp ++ "</div>", st1)
    else
      let step := subsubsectionStep st
      match walkNodes fuel step.2 contents with
      | none => none
      | some (tmp, st1) =>
        some ("<div class=\"subsubsection\" id=\"" ++ step.1 ++ "\">" ++
          Nat.repr (st.sectionCounter - 1) ++ "." ++ Nat.repr (st.subsectionCounter - 1) ++ "." ++
          Nat.repr st.subsubsectionCounter ++ " " ++ joinSpace tmp ++ "</div>", st1)

end

/-- The element names of `TEXT_NODES` (lines 13-25). -/
def isTextNodeName (s : String) : Bool :=
  s == "underline" || s == "textsubscript" || s == "textsuperscript" ||
  s == "textit" || s == "textbf" || s == "textsc" || s == "texttt" ||
  s == "it" || s == "bf" || s == "sc" || s == "tt"

/-- The element names of `SECTION_NODES` (lines 26-35). -/
def isSectionNodeName (s : String) : Bool :=
  s == "section" || s == "section*" || s == "subsection" || s == "subsection*" ||
  s == "subsubsection" || s == "subsubsection*" || s == "paragraph" || s == "paragraph*"

/-- `int(node.children[2].args[1].contents[0]) + 1` from line 329 of the
source: extract the counter-reset value of a `setcounter` node, failing
(like the Python exceptions) when the argument shape does not fit. -/
def setcounterSeed (c2 : TexNode) : Option Nat :=
  match c2.nodeArgs.get? 1 with
  | none => none
  | some arg =>
    match arg.nodeContents.head? with
    | some (.text s) => (parseNat s).map (· + 1)
    | _ => none

mutual

/-- `__convert_block` (lines 152-183) on the content list of a parsed
block tree: dispatch on the first top-level content item, walk or delegate,
and join all emitted pieces with single spaces.  An empty tree fails at
`tree.contents[0]` exactly as the Python `IndexError` does. -/
def convertBlock : Nat → ConvState → List TexNode → Bool → Option (String × ConvState)
  | 0, _, _, _ => none
  | _ + 1, _, [], _ => none
  | fuel + 1, st, first :: rest, alreadyParsed =>
    if isTextLeaf first || isTextNodeName first.name then
      match walkNodes fuel st (first :: rest) with
      | none => none
      | some (tmp, st1) =>
        if alreadyParsed then
          some (joinSpace tmp, st1)
        else
          some (joinSpace (["<p>"] ++ tmp ++ ["</p>"]), st1)
    else if first.name == "BraceGroup" then
      match first.nodeContents.head? with
      | some (.text s) => some (s, st)
      | _ => none
    else if isSectionNodeName first.name then
      match walkNodes fuel st (first :: rest) with
      | none => none
      | some (tmp, st1) => some (joinSpace tmp, st1)
    else if first.name == "itemize" then
      itemizeHandler fuel st first.nodeContents
    else if first.name == "enumerate" then
      enumerateHandler fuel st first.nodeContents
    else
      some (first.name, st)

/-- `Tex2HTMLConverter.itemize` (lines 292-304): every element child is an
item; each of its content elements is wrapped in a singleton tree and fed
back through `__convert_block` with `already_parsed=True`. -/
def itemizeHandler : Nat → ConvState → List TexNode → Option (String × ConvState)
  | 0, _, _ => none
  | fuel + 1, st, contents =>
    match itemLoop fuel st (elemChildren contents) with
    | none => none
    | some (lis, st1) => some ("<ul>" ++ joinSpace lis ++ "</ul>", st1)

/-- The item loop of `itemize`. -/
def itemLoop : Nat → ConvState → List TexNode → Option (List String × ConvState)
  | 0, _, _ => none
  | _ + 1, st, [] => some ([], st)
  | fuel + 1, st, child :: rest =>
    match itemContents fuel st child.nodeContents with
    | none => none
    | some (tmp, st1) =>
      match itemLoop fuel st1 rest with
      | none => none
      | some (lis, st2) => some (("<li>" ++ joinSpace tmp ++ "</li>") :: lis, st2)

/-- The inner loop shared by both list handlers: convert each content
element of one item through `__convert_block(..., already_parsed=True)`. -/
def itemContents : Nat → ConvState → List TexNode → Option (List String × ConvState)
  | 0, _, _ => none
  | _ + 1, st, [] => some ([], st)
  | fuel + 1, st, x :: rest =>
    match convertBlock fuel st [x] true with
    | none => none
    | some (s, st1) =>
      match itemContents fuel st1 rest with
      | none => none
      | some (ss, st2) => some (s :: ss, st2)

/-- `Tex2HTMLConverter.enumerate` (lines 306-347): detect the glossed
example preamble (a `def` first child sets the example class and a default
seed of 1, a `setcounter` third child overrides the seed with its value
plus one), then render the items, numbering them when a seed is set. -/
def enumerateHandler : Nat → ConvState → List TexNode → Option (String × ConvState)
  | 0, _, _ => none
  | fuel + 1, st, contents =>
    let elems := elemChildren contents
    match elems.head? with
    | none => none
    | some c0 =>
      let classAttribute := if c0.name == "def" then " class=\"example\"" else ""
      let base : Option Nat := if c0.name == "def" then some 1 else none
      let seeded : Option (Option Nat) :=
        match elems.get? 2 with
        | some c2 =>
          if c2.name == "setcounter" then (setcounterSeed c2).map some else some base
        | none => some base
      match seeded with
      | none => none
      | some firstNo =>
        match enumLoop fuel st firstNo elems with
        | none => none
        | some (lis, st1) =>
          some ("<ol" ++ classAttribute ++ ">" ++ joinSpace lis ++ "</ol>", st1)

/-- The item loop of `enumerate`: children that are not items are skipped;
items receive a parenthesized running number when a seed is present. -/
def enumLoop : Nat → ConvState → Option Nat → List TexNode → Option (List String × ConvState)
  | 0, _, _, _ => none
  | _ + 1, st, _, [] => some ([], st)
  | fuel + 1, st, firstNo, child :: rest =>
    if child.name != "item" then
      enumLoop fuel st firstNo rest
    else
      match itemContents fuel st child.nodeContents with
      | none => none
      | some (tmp, st1) =>
        match firstNo with
        | none =>
          match enumLoop fuel st1 none rest with
          | none => none
          | some (lis, st2) => some (("<li>" ++ joinSpace tmp ++ "</li>") :: lis, st2)
        | some n =>
          match enumLoop fuel st1 (some (n + 1)) rest with
          | none => none
          | some (lis, st2) =>
            some (("<li>(" ++ Nat.repr n ++ ") " ++ joinSpace tmp ++ "</li>") :: lis, st2)

end

/-- `convert_example` (line 438). -/
def convertExample (txt : String) (exampleNumber : Nat) : String :=
  "(" ++ Nat.repr exampleNumber ++ "): " ++ txt

/-- One block as seen by the `__convert` dispatch loop: a block whose text
starts with `\ex`, a block whose text starts with `\tableofcontents`, or
any other block together with the tree the external parser produces for
it (an empty block parses to an empty tree). -/
inductive Block where
  | ex (txt : String) : Block
  | toc : Block
  | parsed (tree : List TexNode) : Block

/-- The block loop of `__convert` (lines 134-146): glossed examples are
numbered by the example counter, the table of contents becomes a literal
placeholder, every other block goes through `__convert_block` and
`postprocess`. -/
def convertDocS : Nat → ConvState → List Block → Option (List String × ConvState)
  | 0, _, _ => none
  | _ + 1, st, [] => some ([], st)
  | fuel + 1, st, b :: rest =>
    match b with
    | .ex txt =>
      let frag := convertExample txt st.exampleCounter
      match convertDocS fuel { st with exampleCounter := st.exampleCounter + 1 } rest with
      | none => none
      | some (frags, st1) => some (frag :: frags, st1)
    | .toc =>
      match convertDocS fuel st rest with
      | none => none
      | some (frags, st1) => some ("<p>TOC</p>" :: frags, st1)
    | .parsed tree =>
      match convertBlock fuel st tree false with
      | none => none
      | some (s, st1) =>
        match convertDocS fuel st1 rest with
        | none => none
        | some (frags, st2) => some (postprocess s :: frags, st2)

/-- `HTML_arr` after `__convert` (lines 147-149): the per-block fragments
followed by the postprocessed footnote bodies. -/
def HTMLarr (fuel : Nat) (blocks : List Block) : Option (List String) :=
  match convertDocS fuel initState blocks with
  | none => none
  | some (frags, st) => some (frags ++ st.footnotes.map postprocess)

/-- `get_HTML` (lines 360-363): `''.join(self.HTML_arr)`. -/
def getHTML (fuel : Nat) (blocks : List Block) : Option String :=
  (HTMLarr fuel blocks).map String.join

mutual

/-- No unstarred sectioning command occurs anywhere in this node. -/
def noSectioningNode : TexNode → Bool
  | .text _ => true
  | .elem nm _ contents =>
    !(nm == "section" || nm == "subsection" || nm == "subsubsection") &&
      noSectioningList contents

/-- No unstarred sectioning command occurs anywhere in this forest. -/
def noSectioningList : List TexNode → Bool
  | [] => true
  | n :: rest => noSectioningNode n && noSectioningList rest

end

mutual

/-- No label command occurs anywhere in this node. -/
def noLabelNode : TexNode → Bool
  | .text _ => true
  | .elem nm _ contents => !(nm == "label") && noLabelList contents

/-- No label command occurs anywhere in this forest. -/
def noLabelList : List TexNode → Bool
  | [] => true
  | n :: rest => noLabelNode n && noLabelList rest

end

/-- No walker-reachable construct in this forest mutates the counters, the
label registry, or the last generated id: no labels and no unstarred
sectioning commands. -/
def noMutatorsList (l : List TexNode) : Bool :=
  noSectioningList l && noLabelList l

/-- The counters and the last generated id of `st'` agree with those of
`st`. -/
def CtrsEq (st st' : ConvState) : Prop :=
  st'.sectionCounter = st.sectionCounter ∧
  st'.subsectionCounter = st.subsectionCounter ∧
  st'.subsubsectionCounter = st.subsubsectionCounter ∧
  st'.paragraphCounter = st.paragraphCounter ∧
  st'.exampleCounter = st.exampleCounter ∧
  st'.figureCounter = st.figureCounter ∧
  st'.tableCounter = st.tableCounter ∧
  st'.lastGeneratedLabel = st.lastGeneratedLabel

theorem ctrsEq_refl (st : ConvState) : CtrsEq st st :=
  ⟨rfl, rfl, rfl, rfl, rfl, rfl, rfl, rfl⟩

theorem ctrsEq_trans {a b c : ConvState} (h1 : CtrsEq a b) (h2 : CtrsEq b c) : CtrsEq a c :=
  ⟨h2.1.trans h1.1, h2.2.1.trans h1.2.1, h2.2.2.1.trans h1.2.2.1,
   h2.2.2.2.1.trans h1.2.2.2.1, h2.2.2.2.2.1.trans h1.2.2.2.2.1,
   h2.2.2.2.2.2.1.trans h1.2.2.2.2.2.1, h2.2.2.2.2.2.2.1.trans h1.2.2.2.2.2.2.1,
   h2.2.2.2.2.2.2.2.trans h1.2.2.2.2.2.2.2⟩

theorem ctrsEq_set_dict (st : ConvState) (d : List (String × RegVal)) :
    CtrsEq st { st with labelReplacementDict := d } :=
  ⟨rfl, rfl, rfl, rfl, rfl, rfl, rfl, rfl⟩

theorem ctrsEq_set_footnotes (st : ConvState) (f : List String) :
    CtrsEq st { st with footnotes := f } :=
  ⟨rfl, rfl, rfl, rfl, rfl, rfl, rfl, rfl⟩

/-- A fresh Python dict binding is found by a subsequent lookup. -/
theorem dictFind_dictInsert (k : String) (v : RegVal) :
    ∀ d : List (String × RegVal), dictFind k (dictInsert k v d) = some v := by
  intro d
  induction d with
  | nil => simp [dictInsert, dictFind]
  | cons p rest ih =>
    obtain ⟨k', v'⟩ := p
    by_cases h : k' == k
    · simp [dictInsert, h, dictFind]
    · simp only [dictInsert, h]
      simp only [Bool.false_eq_true, if_false, dictFind, h]
      exact ih

/-- Master preservation lemma: walking any forest that contains no
unstarred sectioning command leaves all seven counters and the last
generated id unchanged (labels and footnotes touch only the registry and
the footnote list). -/
theorem walkPreservesCtrs : ∀ fuel : Nat,
    (∀ st ns out st', noSectioningList ns = true →
        walkNodes fuel st ns = some (out, st') → CtrsEq st st') ∧
    (∀ st n out st', noSectioningNode n = true →
        walkOne fuel st n = some (out, st') → CtrsEq st st') ∧
    (∀ st ch out st', noSectioningList ch = true →
        sectionHandler fuel st ch true = some (out, st') → CtrsEq st st') ∧
    (∀ st ch out st', noSectioningList ch = true →
        subsectionHandler fuel st ch true = some (out, st') → CtrsEq st st') ∧
    (∀ st ch out st', noSectioningList ch = true →
        subsubsectionHandler fuel st ch true = some (out, st') → CtrsEq st st') := by
  intro fuel
  induction fuel with
  | zero =>
    refine ⟨?_, ?_, ?_, ?_, ?_⟩ <;> intro st x out st' hx h <;> simp [walkNodes, walkOne,
      sectionHandler, subsectionHandler, subsubsectionHandler] at h
  | succ f ih =>
    obtain ⟨ihN, ihO, ihS, ihSS, ihSSS⟩ := ih
    refine ⟨?_, ?_, ?_, ?_, ?_⟩
    · intro st ns out st' hns h
      cases ns with
      | nil =>
        simp only [walkNodes, Option.some.injEq, Prod.mk.injEq] at h
        rw [← h.2]
        exact ctrsEq_refl st
      | cons n rest =>
        simp only [walkNodes] at h
        cases h1 : walkOne f st n with
        | none => simp [h1] at h
        | some p =>
          obtain ⟨o1, s1⟩ := p
          simp only [h1] at h
          cases h2 : walkNodes f s1 rest with
          | none => simp [h2] at h
          | some q =>
            obtain ⟨o2, s2⟩ := q
            simp only [h2] at h
            simp only [Option.some.injEq, Prod.mk.injEq] at h
            have hns' : noSectioningNode n = true ∧ noSectioningList rest = true := by
              simpa [noSectioningList, Bool.and_eq_true] using hns
            rw [← h.2]
            exact ctrsEq_trans (ihO st n o1 s1 hns'.1 h1) (ihN s1 rest o2 s2 hns'.2 h2)
    · intro st n out st' hn h
      cases n with
      | text s =>
        simp only [walkOne, Option.some.injEq, Prod.mk.injEq] at h
        rw [← h.2]
        exact ctrsEq_refl st
      | elem nm args contents =>
        have hnm : ((nm == "section") = false ∧ (nm == "subsection") = false ∧
            (nm == "subsubsection") = false) ∧ noSectioningList contents = true := by
          simpa [noSectioningNode, Bool.and_eq_true, Bool.not_eq_true',
            Bool.or_eq_false_iff, and_assoc] using hn
        simp only [walkOne] at h
        cases h1 : walkNodes f st contents with
        | none => simp [h1] at h
        | some p =>
          obtain ⟨tmp, s1⟩ := p
          simp only [h1] at h
          have hpre : CtrsEq st s1 := ihN st contents tmp s1 hnm.2 h1
          by_cases hc1 : nm == "label"
          · simp only [hc1, if_true] at h
            cases h2 : (textsOfList contents).head? with
            | none => simp [h2] at h
            | some key =>
              simp only [h2] at h
              simp only [Option.some.injEq, Prod.mk.injEq] at h
              rw [← h.2]
              exact ctrsEq_trans hpre (ctrsEq_set_dict s1 _)
          · simp only [hc1, Bool.false_eq_true, if_false] at h
            by_cases hc2 : nm == "footnote"
            · simp only [hc2, if_true, Option.some.injEq, Prod.mk.injEq] at h
              rw [← h.2]
              exact ctrsEq_trans hpre (ctrsEq_set_footnotes s1 _)
            · simp only [hc2, Bool.false_eq_true, if_false] at h
              by_cases hc3 : nm == "textsuperscript"
              · simp only [hc3, if_true, Option.some.injEq, Prod.mk.injEq] at h
                rw [← h.2]
                exact hpre
              · simp only [hc3, Bool.false_eq_true, if_false] at h
                by_cases hc4 : nm == "textsubscript"
                · simp only [hc4, if_true, Option.some.injEq, Prod.mk.injEq] at h
                  rw [← h.2]
                  exact hpre
                · simp only [hc4, Bool.false_eq_true, if_false] at h
                  by_cases hc5 : nm == "textbackslash"
                  · simp only [hc5, if_true, Option.some.injEq, Prod.mk.injEq] at h
                    rw [← h.2]
                    exact hpre
                  · simp only [hc5, Bool.false_eq_true, if_false] at h
                    by_cases hc6 : nm == "section"
                    · rw [hnm.1.1] at hc6
                      simp at hc6
                    · simp only [hc6, Bool.false_eq_true, if_false] at h
                      by_cases hc7 : nm == "section*"
                      · simp only [hc7, if_true] at h
                        cases h2 : sectionHandler f s1 contents true with
                        | none => simp [h2] at h
                        | some q =>
                          obtain ⟨frag, s2⟩ := q
                          simp only [h2, Option.map_some', Option.some.injEq, Prod.mk.injEq] at h
                          rw [← h.2]
                          exact ctrsEq_trans hpre (ihS s1 contents frag s2 hnm.2 h2)
                      · simp only [hc7, Bool.false_eq_true, if_false] at h
                        by_cases hc8 : nm == "subsection"
                        · rw [hnm.1.2.1] at hc8
                          simp at hc8
                        · simp only [hc8, Bool.false_eq_true, if_false] at h
                          by_cases hc9 : nm == "subsection*"
                          · simp only [hc9, if_true] at h
                            cases h2 : subsectionHandler f s1 contents true with
                            | none => simp [h2] at h
                            | some q =>
                              obtain ⟨frag, s2⟩ := q
                              simp only [h2, Option.map_some', Option.some.injEq,
                                Prod.mk.injEq] at h
                              rw [← h.2]
                              exact ctrsEq_trans hpre (ihSS s1 contents frag s2 hnm.2 h2)
                          · simp only [hc9, Bool.false_eq_true, if_false] at h
                            by_cases hc10 : nm == "subsubsection"
                            · rw [hnm.1.2.2] at hc10
                              simp at hc10
                            · simp only [hc10, Bool.false_eq_true, if_false] at h
                              by_cases hc11 : nm == "subsubsection*"
                              · simp only [hc11, if_true] at h
                                cases h2 : subsubsectionHandler f s1 contents true with
                                | none => simp [h2] at h
                                | some q =>
                                  obtain ⟨frag, s2⟩ := q
                                  simp only [h2, Option.map_some', Option.some.injEq,
                                    Prod.mk.injEq] at h
                                  rw [← h.2]
                                  exact ctrsEq_trans hpre (ihSSS s1 contents frag s2 hnm.2 h2)
                              · simp only [hc11, Bool.false_eq_true, if_false,
                                  Option.some.injEq, Prod.mk.injEq] at h
                                rw [← h.2]
                                exact hpre
    · intro st ch out st' hch h
      simp only [sectionHandler, if_true] at h
      cases h1 : walkNodes f st ch with
      | none => simp [h1] at h
      | some p =>
        obtain ⟨tmp, s1⟩ := p
        simp only [h1] at h
        simp only [Option.some.injEq, Prod.mk.injEq] at h
        rw [← h.2]
        exact ihN st ch tmp s1 hch h1
    · intro st ch out st' hch h
      simp only [subsectionHandler, if_true] at h
      cases h1 : walkNodes f st ch with
      | none => simp [h1] at h
      | some p =>
        obtain ⟨tmp, s1⟩ := p
        simp only [h1] at h
        simp only [Option.some.injEq, Prod.mk.injEq] at h
        rw [← h.2]
        exact ihN st ch tmp s1 hch h1
    · intro st ch out st' hch h
      simp only [subsubsectionHandler, if_true] at h
      cases h1 : walkNodes f st ch with
      | none => simp [h1] at h
      | some p =>
        obtain ⟨tmp, s1⟩ := p
        simp only [h1] at h
        simp only [Option.some.injEq, Prod.mk.injEq] at h
        rw [← h.2]
        exact ihN st ch tmp s1 hch h1

/-- Master preservation lemma: walking any forest that contains no label
command leaves the label registry unchanged (sectioning steps and
footnotes never touch the registry). -/
theorem walkPreservesDict : ∀ fuel : Nat,
    (∀ st ns out st', noLabelList ns = true →
        walkNodes fuel st ns = some (out, st') →
        st'.labelReplacementDict = st.labelReplacementDict) ∧
    (∀ st n out st', noLabelNode n = true →
        walkOne fuel st n = some (out, st') →
        st'.labelReplacementDict = st.labelReplacementDict) ∧
    (∀ st ch starred out st', noLabelList ch = true →
        sectionHandler fuel st ch starred = some (out, st') →
        st'.labelReplacementDict = st.labelReplacementDict) ∧
    (∀ st ch starred out st', noLabelList ch = true →
        subsectionHandler fuel st ch starred = some (out, st') →
        st'.labelReplacementDict = st.labelReplacementDict) ∧
    (∀ st ch starred out st', noLabelList ch = true →
        subsubsectionHandler fuel st ch starred = some (out, st') →
        st'.labelReplacementDict = st.labelReplacementDict) := by
  intro fuel
  induction fuel with
  | zero =>
    refine ⟨?_, ?_, ?_, ?_, ?_⟩
    · intro st x out st' hx h
      simp [walkNodes] at h
    · intro st x out st' hx h
      simp [walkOne] at h
    · intro st x starred out st' hx h
      simp [sectionHandler] at h
    · intro st x starred out st' hx h
      simp [subsectionHandler] at h
    · intro st x starred out st' hx h
      simp [subsubsectionHandler] at h
  | succ f ih =>
    obtain ⟨ihN, ihO, ihS, ihSS, ihSSS⟩ := ih
    refine ⟨?_, ?_, ?_, ?_, ?_⟩
    · intro st ns out st' hns h
      cases ns with
      | nil =>
        simp only [walkNodes, Option.some.injEq, Prod.mk.injEq] at h
        rw [← h.2]
      | cons n rest =>
        simp only [walkNodes] at h
        cases h1 : walkOne f st n with
        | none => simp [h1] at h
        | some p =>
          obtain ⟨o1, s1⟩ := p
          simp only [h1] at h
          cases h2 : walkNodes f s1 rest with
          | none => simp [h2] at h
          | some q =>
            obtain ⟨o2, s2⟩ := q
            simp only [h2] at h
            simp only [Option.some.injEq, Prod.mk.injEq] at h
            have hns' : noLabelNode n = true ∧ noLabelList rest = true := by
              simpa [noLabelList, Bool.and_eq_true] using hns
            rw [← h.2]
            exact (ihN s1 rest o2 s2 hns'.2 h2).trans (ihO st n o1 s1 hns'.1 h1)
    · intro st n out st' hn h
      cases n with
      | text s =>
        simp only [walkOne, Option.some.injEq, Prod.mk.injEq] at h
        rw [← h.2]
      | elem nm args contents =>
        have hnm : (nm == "label") = false ∧ noLabelList contents = true := by
          simpa [noLabelNode, Bool.and_eq_true, Bool.not_eq_true'] using hn
        simp only [walkOne] at h
        cases h1 : walkNodes f st contents with
        | none => simp [h1] at h
        | some p =>
          obtain ⟨tmp, s1⟩ := p
          simp only [h1] at h
          have hpre : s1.labelReplacementDict = st.labelReplacementDict :=
            ihN st contents tmp s1 hnm.2 h1
          simp only [hnm.1, Bool.false_eq_true, if_false] at h
          by_cases hc2 : nm == "footnote"
          · simp only [hc2, if_true, Option.some.injEq, Prod.mk.injEq] at h
            rw [← h.2]
            exact hpre
          · simp only [hc2, Bool.false_eq_true, if_false] at h
            by_cases hc3 : nm == "textsuperscript"
            · simp only [hc3, if_true, Option.some.injEq, Prod.mk.injEq] at h
              rw [← h.2]
              exact hpre
            · simp only [hc3, Bool.false_eq_true, if_false] at h
              by_cases hc4 : nm == "textsubscript"
              · simp only [hc4, if_true, Option.some.injEq, Prod.mk.injEq] at h
                rw [← h.2]
                exact hpre
              · simp only [hc4, Bool.false_eq_true, if_false] at h
                by_cases hc5 : nm == "textbackslash"
                · simp only [hc5, if_true, Option.some.injEq, Prod.mk.injEq] at h
                  rw [← h.2]
                  exact hpre
                · simp only [hc5, Bool.false_eq_true, if_false] at h
                  by_cases hc6 : nm == "section"
                  · simp only [hc6, if_true] at h
                    cases h2 : sectionHandler f s1 contents false with
                    | none => simp [h2] at h
                    | some q =>
                      obtain ⟨frag, s2⟩ := q
                      simp only [h2, Option.map_some', Option.some.injEq, Prod.mk.injEq] at h
                      rw [← h.2]
                      exact (ihS s1 contents false frag s2 hnm.2 h2).trans hpre
                  · simp only [hc6, Bool.false_eq_true, if_false] at h
                    by_cases hc7 : nm == "section*"
                    · simp only [hc7, if_true] at h
                      cases h2 : sectionHandler f s1 contents true with
                      | none => simp [h2] at h
                      | some q =>
                        obtain ⟨frag, s2⟩ := q
                        simp only [h2, Option.map_some', Option.some.injEq, Prod.mk.injEq] at h
                        rw [← h.2]
                        exact (ihS s1 contents true frag s2 hnm.2 h2).trans hpre
                    · simp only [hc7, Bool.false_eq_true, if_false] at h
                      by_cases hc8 : nm == "subsection"
                      · simp only [hc8, if_true] at h
                        cases h2 : subsectionHandler f s1 contents false with
                        | none => simp [h2] at h
                        | some q =>
                          obtain ⟨frag, s2⟩ := q
                          simp only [h2, Option.map_some', Option.some.injEq,
                            Prod.mk.injEq] at h
                          rw [← h.2]
                          exact (ihSS s1 contents false frag s2 hnm.2 h2).trans hpre
                      · simp only [hc8, Bool.false_eq_true, if_false] at h
                        by_cases hc9 : nm == "subsection*"
                        · simp only [hc9, if_true] at h
                          cases h2 : subsectionHandler f s1 contents true with
                          | none => simp [h2] at h
                          | some q =>
                            obtain ⟨frag, s2⟩ := q
                            simp only [h2, Option.map_some', Option.some.injEq,
                              Prod.mk.injEq] at h
                            rw [← h.2]
                            exact (ihSS s1 contents true frag s2 hnm.2 h2).trans hpre
                        · simp only [hc9, Bool.false_eq_true, if_false] at h
                          by_cases hc10 : nm == "subsubsection"
                          · simp only [hc10, if_true] at h
                            cases h2 : subsubsectionHandler f s1 contents false with
                            | none => simp [h2] at h
                            | some q =>
                              obtain ⟨frag, s2⟩ := q
                              simp only [h2, Option.map_some', Option.some.injEq,
                                Prod.mk.injEq] at h
                              rw [← h.2]
                              exact (ihSSS s1 contents false frag s2 hnm.2 h2).trans hpre
                          · simp only [hc10, Bool.false_eq_true, if_false] at h
                            by_cases hc11 : nm == "subsubsection*"
                            · simp only [hc11, if_true] at h
                              cases h2 : subsubsectionHandler f s1 contents true with
                              | none => simp [h2] at h
                              | some q =>
                                obtain ⟨frag, s2⟩ := q
                                simp only [h2, Option.map_some', Option.some.injEq,
                                  Prod.mk.injEq] at h
                                rw [← h.2]
                                exact (ihSSS s1 contents true frag s2 hnm.2 h2).trans hpre
                            · simp only [hc11, Bool.false_eq_true, if_false,
                                Option.some.injEq, Prod.mk.injEq] at h
                              rw [← h.2]
                              exact hpre
    · intro st ch starred out st' hch h
      cases starred with
      | true =>
        simp only [sectionHandler, if_true] at h
        cases h1 : walkNodes f st ch with
        | none => simp [h1] at h
        | some p =>
          obtain ⟨tmp, s1⟩ := p
          simp only [h1, Option.some.injEq, Prod.mk.injEq] at h
          rw [← h.2]
          exact ihN st ch tmp s1 hch h1
      | false =>
        simp only [sectionHandler, Bool.false_eq_true, if_false] at h
        cases h1 : walkNodes f (sectionStep st).2 ch with
        | none => simp [h1] at h
        | some p =>
          obtain ⟨tmp, s1⟩ := p
          simp only [h1, Option.some.injEq, Prod.mk.injEq] at h
          rw [← h.2]
          exact ihN (sectionStep st).2 ch tmp s1 hch h1
    · intro st ch starred out st' hch h
      cases starred with
      | true =>
        simp only [subsectionHandler, if_true] at h
        cases h1 : walkNodes f st ch with
        | none => simp [h1] at h
        | some p =>
          obtain ⟨tmp, s1⟩ := p
          simp only [h1, Option.some.injEq, Prod.mk.injEq] at h
          rw [← h.2]
          exact ihN st ch tmp s1 hch h1
      | false =>
        simp only [subsectionHandler, Bool.false_eq_true, if_false] at h
        cases h1 : walkNodes f (subsectionStep st).2 ch with
        | none => simp [h1] at h
        | some p =>
          obtain ⟨tmp, s1⟩ := p
          simp only [h1, Option.some.injEq, Prod.mk.injEq] at h
          rw [← h.2]
          exact ihN (subsectionStep st).2 ch tmp s1 hch h1
    · intro st ch starred out st' hch h
      cases starred with
      | true =>
        simp only [subsubsectionHandler, if_true] at h
        cases h1 : walkNodes f st ch with
        | none => simp [h1] at h
        | some p =>
          obtain ⟨tmp, s1⟩ := p
          simp only [h1, Option.some.injEq, Prod.mk.injEq] at h
          rw [← h.2]
          exact ihN st ch tmp s1 hch h1
      | false =>
        simp only [subsubsectionHandler, Bool.false_eq_true, if_false] at h
        cases h1 : walkNodes f (subsubsectionStep st).2 ch with
        | none => simp [h1] at h
        | some p =>
          obtain ⟨tmp, s1⟩ := p
          simp only [h1, Option.some.injEq, Prod.mk.injEq] at h
          rw [← h.2]
          exact ihN (subsubsectionStep st).2 ch tmp s1 hch h1

/-- No two adjacent characters of the list are both line breaks. -/
def noDoubleBreak : List Char → Bool
  | [] => true
  | [_] => true
  | a :: b :: rest => !(isBreak a && isBreak b) && noDoubleBreak (b :: rest)

/-- The list is empty or does not end with a line break. -/
def lastNotBreak : List Char → Bool
  | [] => true
  | [c] => !isBreak c
  | _ :: rest => lastNotBreak rest

/-- The list is empty or does not start with a line break. -/
def headNotBreak : List Char → Bool
  | [] => true
  | c :: _ => !isBreak c

theorem noDoubleBreak_tail {a : Char} {rest : List Char}
    (h : noDoubleBreak (a :: rest) = true) : noDoubleBreak rest = true := by
  cases rest with
  | nil => rfl
  | cons b r =>
    have := h
    simp only [noDoubleBreak, Bool.and_eq_true] at this
    exact this.2

theorem lastNotBreak_tail {a : Char} {rest : List Char} (hne : rest ≠ [])
    (h : lastNotBreak (a :: rest) = true) : lastNotBreak rest = true := by
  cases rest with
  | nil => exact absurd rfl hne
  | cons b r => exact h

theorem dropWhile_all_break :
    ∀ rs b : List Char, rs.all isBreak = true → headNotBreak b = true →
      List.dropWhile isBreak (rs ++ b) = b := by
  intro rs
  induction rs with
  | nil =>
    intro b _ hb
    cases b with
    | nil => rfl
    | cons c b' =>
      simp only [headNotBreak, Bool.not_eq_true'] at hb
      simp [List.dropWhile, hb]
  | cons r rs' ih =>
    intro b hall hb
    simp only [List.all_cons, Bool.and_eq_true] at hall
    simp only [List.cons_append, List.dropWhile, hall.1]
    exact ih b hall.2 hb

theorem splitBlocksAux_noDouble :
    ∀ cs acc : List Char, noDoubleBreak cs = true →
      splitBlocksAux acc cs = [acc.reverse ++ cs] := by
  intro cs
  induction cs with
  | nil =>
    intro acc _
    simp [splitBlocksAux]
  | cons c rest ih =>
    intro acc h
    cases rest with
    | nil => simp [splitBlocksAux]
    | cons c2 rest2 =>
      have hcond : (isBreak c && isBreak c2) = false := by
        have := h
        simp only [noDoubleBreak, Bool.and_eq_true, Bool.not_eq_true'] at this
        exact this.1
      simp only [splitBlocksAux, hcond, Bool.false_eq_true, if_false]
      rw [ih (c :: acc) (noDoubleBreak_tail h)]
      simp

theorem splitBlocksAux_step_nobreak (acc : List Char) (c c2 : Char) (rest2 : List Char)
    (h : (isBreak c && isBreak c2) = false) :
    splitBlocksAux acc (c :: c2 :: rest2) = splitBlocksAux (c :: acc) (c2 :: rest2) := by
  rw [splitBlocksAux]
  simp [h]

theorem splitBlocksAux_step_break (acc : List Char) (c c2 : Char) (rest2 : List Char)
    (h : isBreak c = true) (h2 : isBreak c2 = true) :
    splitBlocksAux acc (c :: c2 :: rest2) =
      acc.reverse :: splitBlocksAux [] (rest2.dropWhile isBreak) := by
  rw [splitBlocksAux]
  simp [h, h2]

theorem splitBlocksAux_break :
    ∀ a acc r b : List Char, noDoubleBreak a = true → lastNotBreak a = true →
      2 ≤ r.length → r.all isBreak = true → headNotBreak b = true →
      splitBlocksAux acc (a ++ r ++ b) = (acc.reverse ++ a) :: splitBlocks b := by
  intro a
  induction a with
  | nil =>
    intro acc r b _ _ hlen hall hb
    cases r with
    | nil => simp at hlen
    | cons r1 r' =>
      cases r' with
      | nil => simp at hlen
      | cons r2 rs =>
        simp only [List.all_cons, Bool.and_eq_true] at hall
        simp only [List.nil_append, List.cons_append]
        rw [splitBlocksAux_step_break acc r1 r2 (rs ++ b) hall.1 hall.2.1]
        rw [dropWhile_all_break rs b hall.2.2 hb]
        simp [splitBlocks]
  | cons x a' ih =>
    intro acc r b hnd hlast hlen hall hb
    have hstep : splitBlocksAux acc ((x :: a') ++ r ++ b) =
        splitBlocksAux (x :: acc) (a' ++ r ++ b) := by
      cases ha' : a' with
      | nil =>
        have hx : isBreak x = false := by
          rw [ha'] at hlast
          simpa [lastNotBreak, Bool.not_eq_true'] using hlast
        cases r with
        | nil => simp at hlen
        | cons r1 r' =>
          cases r' with
          | nil => simp at hlen
          | cons r2 rs =>
            simp only [List.nil_append, List.cons_append]
            exact splitBlocksAux_step_nobreak acc x r1 (r2 :: rs ++ b) (by simp [hx])
      | cons y a'' =>
        have hcond : (isBreak x && isBreak y) = false := by
          cases hxv : isBreak x with
          | false => simp
          | true =>
            have := hnd
            rw [ha'] at this
            simp only [noDoubleBreak, Bool.and_eq_true, Bool.not_eq_true'] at this
            rw [hxv] at this
            simpa using this.1
        simp only [List.cons_append]
        exact splitBlocksAux_step_nobreak acc x y (a'' ++ r ++ b) hcond
    rw [hstep]
    have hnd' : noDoubleBreak a' = true := noDoubleBreak_tail hnd
    have hlast' : lastNotBreak a' = true := by
      cases a' with
      | nil => rfl
      | cons y a'' => exact hlast
    rw [ih (x :: acc) r b hnd' hlast' hlen hall hb]
    simp

/-- The anchor prefix emitted exactly once per rendered footnote anchor. -/
def anchorPattern : String := "<span id=\"footnoteanchor"

/-- The body prefix emitted exactly once per collected footnote body. -/
def bodyPattern : String := "<div id=\"footnote"

/-- A one-block document whose block is `\section{A\footnote{x}}`. -/
def docWithFootnoteInSection : List Block :=
  [Block.parsed
    [TexNode.elem "section" []
      [TexNode.text "A", TexNode.elem "footnote" [] [TexNode.text "x"]]]]

/-- A one-block document: a section, a subsection, and a subsubsection
carrying a label. -/
def docWithSubsubsectionLabel : List TexNode :=
  [TexNode.elem "section" [] [TexNode.text "A"],
   TexNode.elem "subsection" [] [TexNode.text "B"],
   TexNode.elem "subsubsection" []
     [TexNode.text "C", TexNode.elem "label" [] [TexNode.text "k"]]]

/-- Claim C2: immediately after the numbering step of an unstarred section
command the subsection, subsubsection and paragraph counters equal 1 and
the section counter has advanced by one; after an unstarred subsection
step the subsubsection and paragraph counters equal 1 while the ancestor
section counter is untouched; after an unstarred subsubsection step the
paragraph counter equals 1 while both ancestor counters are untouched.
No step ever resets an ancestor counter. -/
theorem section_counter_reset_discipline (st : ConvState) :
    ((sectionStep st).2.subsectionCounter = 1 ∧
     (sectionStep st).2.subsubsectionCounter = 1 ∧
     (sectionStep st).2.paragraphCounter = 1 ∧
     (sectionStep st).2.sectionCounter = st.sectionCounter + 1) ∧
    ((subsectionStep st).2.subsubsectionCounter = 1 ∧
     (subsectionStep st).2.paragraphCounter = 1 ∧
     (subsectionStep st).2.sectionCounter = st.sectionCounter ∧
     (subsectionStep st).2.subsectionCounter = st.subsectionCounter + 1) ∧
    ((subsubsectionStep st).2.paragraphCounter = 1 ∧
     (subsubsectionStep st).2.sectionCounter = st.sectionCounter ∧
     (subsubsectionStep st).2.subsectionCounter = st.subsectionCounter ∧
     (subsubsectionStep st).2.subsubsectionCounter = st.subsubsectionCounter + 1) :=
  ⟨⟨rfl, rfl, rfl, rfl⟩, ⟨rfl, rfl, rfl, rfl⟩, ⟨rfl, rfl, rfl, rfl⟩⟩

/-- Claim C4 counterexample: `postprocess` is not a fixed point on its own
output; the string produced from the protected-space marker next to an
escaped angle bracket changes again under a second application. -/
theorem postprocess_not_idempotent_cex :
    postprocess (postprocess "&lt;_a") ≠ postprocess "&lt;_a" := by decide

/-- Claim C4 (amended): `postprocess` is not idempotent.  The deliberately
restored space next to an escaped angle bracket (rule `&lt;_` to `&lt; `)
is collapsed again by a second application, because the collapsing rule
`&lt; ` to `&lt;` precedes the restoring rule in the table. -/
theorem postprocess_space_restoration_collapse :
    postprocess "&lt;_a" = "&lt; a" ∧ postprocess "&lt; a" = "&lt;a" := by decide

/-- Claim C5: segmentation does produce empty blocks (a document starting
with a blank line yields one), and `__convert_block` fails on the empty
tree that an empty block parses to: `tree.contents[0]` is an
out-of-bounds access, modelled by the `none` result, at every fuel. -/
theorem empty_block_conversion_fails :
    splitBlocks ['\n', '\n', 'a'] = [[], ['a']] ∧
    ∀ (fuel : Nat) (st : ConvState) (alreadyParsed : Bool),
      convertBlock (fuel + 1) st [] alreadyParsed = none := by
  constructor
  · simp [splitBlocks, splitBlocksAux, isBreak]
  · intro fuel st ap
    rfl

/-- Claim C7 counterexample: a single CR LF pair is two consecutive break
characters, so it does separate blocks, contrary to the claim. -/
theorem crlf_splits_blocks_cex :
    splitBlocks ['a', '\r', '\n', 'b'] = [['a'], ['b']] ∧
    splitBlocks ['a', '\r', '\n', 'b'] ≠ [['a', '\r', '\n', 'b']] := by
  constructor
  · simp [splitBlocks, splitBlocksAux, isBreak]
  · simp [splitBlocks, splitBlocksAux, isBreak]

/-- Claim C7 (amended): segmentation splits exactly at maximal runs of two
or more consecutive line-break characters (CR and LF counted
individually, in any mixture): a text with no two adjacent break
characters is a single block, and prepending such a text followed by a
break run of length at least two to any remaining text splits exactly
there, preserving order and retaining empty blocks. -/
theorem split_blocks_maximal_runs :
    (∀ cs : List Char, noDoubleBreak cs = true → splitBlocks cs = [cs]) ∧
    (∀ a r b : List Char, noDoubleBreak a = true → lastNotBreak a = true →
      2 ≤ r.length → r.all isBreak = true → headNotBreak b = true →
      splitBlocks (a ++ r ++ b) = a :: splitBlocks b) := by
  constructor
  · intro cs h
    have h0 := splitBlocksAux_noDouble cs [] h
    simpa [splitBlocks] using h0
  · intro a r b h1 h2 h3 h4 h5
    have h0 := splitBlocksAux_break a [] r b h1 h2 h3 h4 h5
    simpa [splitBlocks] using h0

/-- Claim C7 witness: the amended splitting law applied to concrete
inputs, with a lone internal line feed kept inside its block. -/
theorem split_blocks_maximal_runs_witness :
    splitBlocks ['a', '\n', 'b'] = [['a', '\n', 'b']] ∧
    splitBlocks (['a'] ++ ['\n', '\n'] ++ ['b']) = ['a'] :: splitBlocks ['b'] :=
  ⟨split_blocks_maximal_runs.1 ['a', '\n', 'b'] (by decide),
   split_blocks_maximal_runs.2 ['a'] ['\n', '\n'] ['b'] (by decide) (by decide)
     (by simp) (by decide) (by decide)⟩

set_option maxRecDepth 100000 in
/-- Claim C3: converting a block with a section, a subsection and a
subsubsection that carries a label leaves the label bound to the bare
ordinal `1` in the registry, although the emitted subsubsection container
carries the composed id `subsubsection-1.1.1` — line 276 of the source
stores the ordinal instead of the id string. -/
theorem subsubsection_label_registry_divergence :
    (convertBlock 40 initState docWithSubsubsectionLabel false).map
        (fun p => p.2.labelReplacementDict) = some [("k", RegVal.num 1)] ∧
    (convertBlock 40 initState docWithSubsubsectionLabel false).map
        (fun p => countOccur "id=\"subsubsection-1.1.1\"".toList p.1.toList) = some 1 ∧
    RegVal.num 1 ≠ RegVal.str "subsubsection-1.1.1" := by decide

set_option maxRecDepth 100000 in
/-- Claim C1: on a document whose only block is a section command with a
footnote in its contents, the walker collects the footnote body twice
(the dispatch loop walks a sectioning node once before discarding the
buffer and the handler walks it again), so the flushed output holds one
anchor but two bodies. -/
theorem footnote_anchor_body_mismatch :
    (HTMLarr 30 docWithFootnoteInSection).map
        (fun arr => (countOccur anchorPattern.toList (String.join arr).toList,
          countOccur bodyPattern.toList (String.join arr).toList)) = some (1, 2) ∧
    (1 : Nat) ≠ 2 := by decide

/-- Claim C10: `get_HTML` returns exactly the separator-free concatenation
of the final fragment sequence: the per-block fragments followed by the
postprocessed footnote bodies. -/
theorem get_html_concatenation :
    ∀ (fuel : Nat) (blocks : List Block) (frags : List String) (st' : ConvState),
      convertDocS fuel initState blocks = some (frags, st') →
      getHTML fuel blocks =
        some ((frags ++ st'.footnotes.map postprocess).foldl (fun a b => a ++ b) "") := by
  intro fuel blocks frags st' h
  simp [getHTML, HTMLarr, h, String.join]

/-- Claim C10 witness: the concatenation law evaluated on a concrete
document consisting of a table-of-contents block. -/
theorem get_html_concatenation_witness :
    getHTML 5 [Block.toc] =
      some ((["<p>TOC</p>"] ++ initState.footnotes.map postprocess).foldl
        (fun a b => a ++ b) "") :=
  get_html_concatenation 5 [Block.toc] ["<p>TOC</p>"] initState (by decide)

/-- Claim C6 counterexample: a starred section whose contents hold a label
does change the label registry while being processed, because its
contents are recursively walked with all side effects. -/
theorem starred_section_mutates_registry_cex :
    (sectionHandler 5 initState [TexNode.elem "label" [] [TexNode.text "k"]] true).map
        (fun p => p.2.labelReplacementDict) = some [("k", RegVal.noneVal)] ∧
    ([("k", RegVal.noneVal)] : List (String × RegVal)) ≠ initState.labelReplacementDict := by
  decide

/-- Claim C6 (amended): a starred sectioning command whose recursively
walked contents contain no label and no unstarred sectioning command
leaves every counter, the label registry and the last generated id
unchanged, and renders as the same container element as the unstarred
variant with no id attribute and no numeric prefix, wrapping the walked
contents. -/
theorem starred_section_frame :
    ∀ (fuel : Nat) (st : ConvState) (ch : List TexNode),
      noMutatorsList ch = true →
      (∀ out st', sectionHandler fuel st ch true = some (out, st') →
        CtrsEq st st' ∧ st'.labelReplacementDict = st.labelReplacementDict ∧
        ∃ tmp, walkNodes (fuel - 1) st ch = some (tmp, st') ∧
          out = "<div class=\"section\">" ++ joinSpace tmp ++ "</div>") ∧
      (∀ out st', subsectionHandler fuel st ch true = some (out, st') →
        CtrsEq st st' ∧ st'.labelReplacementDict = st.labelReplacementDict ∧
        ∃ tmp, walkNodes (fuel - 1) st ch = some (tmp, st') ∧
          out = "<div class=\"subsection\">" ++ joinSpace tmp ++ "</div>") ∧
      (∀ out st', subsubsectionHandler fuel st ch true = some (out, st') →
        CtrsEq st st' ∧ st'.labelReplacementDict = st.labelReplacementDict ∧
        ∃ tmp, walkNodes (fuel - 1) st ch = some (tmp, st') ∧
          out = "<div class=\"subsubsection\">" ++ joinSpace tmp ++ "</div>") := by
  intro fuel st ch hmut
  have hsec : noSectioningList ch = true := by
    have := hmut
    simp only [noMutatorsList, Bool.and_eq_true] at this
    exact this.1
  have hlab : noLabelList ch = true := by
    have := hmut
    simp only [noMutatorsList, Bool.and_eq_true] at this
    exact this.2
  cases fuel with
  | zero =>
    refine ⟨?_, ?_, ?_⟩ <;> intro out st' h <;>
      simp [sectionHandler, subsectionHandler, subsubsectionHandler] at h
  | succ f =>
    refine ⟨?_, ?_, ?_⟩
    · intro out st' h
      simp only [sectionHandler, if_true] at h
      cases h1 : walkNodes f st ch with
      | none => simp [h1] at h
      | some p =>
        obtain ⟨tmp, s1⟩ := p
        simp only [h1, Option.some.injEq, Prod.mk.injEq] at h
        obtain ⟨ho, hs⟩ := h
        rw [← hs]
        exact ⟨(walkPreservesCtrs f).1 st ch tmp s1 hsec h1,
          (walkPreservesDict f).1 st ch tmp s1 hlab h1,
          tmp, h1, ho.symm⟩
    · intro out st' h
      simp only [subsectionHandler, if_true] at h
      cases h1 : walkNodes f st ch with
      | none => simp [h1] at h
      | some p =>
        obtain ⟨tmp, s1⟩ := p
        simp only [h1, Option.some.injEq, Prod.mk.injEq] at h
        obtain ⟨ho, hs⟩ := h
        rw [← hs]
        exact ⟨(walkPreservesCtrs f).1 st ch tmp s1 hsec h1,
          (walkPreservesDict f).1 st ch tmp s1 hlab h1,
          tmp, h1, ho.symm⟩
    · intro out st' h
      simp only [subsubsectionHandler, if_true] at h
      cases h1 : walkNodes f st ch with
      | none => simp [h1] at h
      | some p =>
        obtain ⟨tmp, s1⟩ := p
        simp only [h1, Option.some.injEq, Prod.mk.injEq] at h
        obtain ⟨ho, hs⟩ := h
        rw [← hs]
        exact ⟨(walkPreservesCtrs f).1 st ch tmp s1 hsec h1,
          (walkPreservesDict f).1 st ch tmp s1 hlab h1,
          tmp, h1, ho.symm⟩

/-- Claim C6 witness: the starred frame law applied to a starred section
with plain text contents, from the initial state. -/
theorem starred_section_frame_witness :
    CtrsEq initState initState ∧
    initState.labelReplacementDict = initState.labelReplacementDict ∧
    ∃ tmp, walkNodes 4 initState [TexNode.text "T"] = some (tmp, initState) ∧
      "<div class=\"section\">T</div>" = "<div class=\"section\">" ++ joinSpace tmp ++ "</div>" :=
  (starred_section_frame 5 initState [TexNode.text "T"] (by decide)).1
    "<div class=\"section\">T</div>" initState (by decide)

/-- Claim C9: when a label is processed after walking any prefix that
contains no unstarred sectioning command, starting from a state whose
last generated id is the `None` sentinel of `__init__`, the conversion
does not fail on the missing id: the label's key is bound to the sentinel
and the label contributes nothing to the output. -/
theorem label_before_section_binds_sentinel :
    ∀ (fuel1 fuel2 : Nat) (st : ConvState) (ns : List TexNode) (out1 : List String)
      (st1 : ConvState) (out2 : List String) (st2 : ConvState) (k : String),
      noSectioningList ns = true →
      st.lastGeneratedLabel = RegVal.noneVal →
      walkNodes fuel1 st ns = some (out1, st1) →
      walkOne fuel2 st1 (TexNode.elem "label" [] [TexNode.text k]) = some (out2, st2) →
      dictFind k st2.labelReplacementDict = some RegVal.noneVal ∧ out2 = [] := by
  intro fuel1 fuel2 st ns out1 st1 out2 st2 k hns hlast h1 h2
  have hpres : CtrsEq st st1 := (walkPreservesCtrs fuel1).1 st ns out1 st1 hns h1
  have hlast1 : st1.lastGeneratedLabel = RegVal.noneVal := by
    rw [hpres.2.2.2.2.2.2.2, hlast]
  cases fuel2 with
  | zero => simp [walkOne] at h2
  | succ f =>
    simp only [walkOne] at h2
    cases h3 : walkNodes f st1 [TexNode.text k] with
    | none => simp [h3] at h2
    | some p =>
      obtain ⟨tmp, s1⟩ := p
      have hpres2 : CtrsEq st1 s1 :=
        (walkPreservesCtrs f).1 st1 [TexNode.text k] tmp s1
          (by simp [noSectioningList, noSectioningNode]) h3
      have hlasts1 : s1.lastGeneratedLabel = RegVal.noneVal := by
        rw [hpres2.2.2.2.2.2.2.2, hlast1]
      simp only [h3, textsOfList, textsOfNode, List.append_nil, List.head?_cons,
        show (("label" : String) == "label") = true from rfl, if_true,
        Option.some.injEq, Prod.mk.injEq] at h2
      obtain ⟨ho, hs⟩ := h2
      rw [← hs]
      refine ⟨?_, ho.symm⟩
      rw [hlasts1]
      exact dictFind_dictInsert k RegVal.noneVal s1.labelReplacementDict

/-- Claim C9 witness: a label processed after a plain-text prefix from the
initial state binds its key to the sentinel. -/
theorem label_before_section_binds_sentinel_witness :
    dictFind "k" (dictInsert "k" RegVal.noneVal
      initState.labelReplacementDict) = some RegVal.noneVal ∧ ([] : List String) = [] :=
  label_before_section_binds_sentinel 5 5 initState [TexNode.text "hello"] ["hello"]
    initState []
    { initState with
      labelReplacementDict := dictInsert "k" RegVal.noneVal initState.labelReplacementDict }
    "k" (by decide) rfl (by decide) (by decide)


/-- The numbered list items the glossed-example branch produces: each body
is wrapped in an `li` prefixed with a parenthesized running number
starting at `n`. -/
def numberedLis (n : Nat) : List String → List String
  | [] => []
  | b :: rest => ("<li>(" ++ Nat.repr n ++ ") " ++ b ++ "</li>") :: numberedLis (n + 1) rest

/-- The list items rendered for a seed (`first_example_no`) value: running
numbers when a seed is present, bare `li` wrappers otherwise. -/
def renderLis (firstNo : Option Nat) (bodies : List String) : List String :=
  match firstNo with
  | some n => numberedLis n bodies
  | none => bodies.map (fun b => "<li>" ++ b ++ "</li>")

/-- Whatever the items contain, the enumerate item loop produces exactly a
run of `li` fragments whose numbering is determined by the seed alone:
running numbers from the seed when one is present, unprefixed `li`
wrappers otherwise. -/
theorem enumLoop_numbering :
    ∀ fuel : Nat, ∀ (st : ConvState) (firstNo : Option Nat) (elems : List TexNode)
      (lis : List String) (st' : ConvState),
      enumLoop fuel st firstNo elems = some (lis, st') →
      ∃ bodies : List String, lis = renderLis firstNo bodies := by
  intro fuel
  induction fuel with
  | zero =>
    intro st firstNo elems lis st' h
    simp [enumLoop] at h
  | succ f ih =>
    intro st firstNo elems lis st' h
    cases elems with
    | nil =>
      simp only [enumLoop, Option.some.injEq, Prod.mk.injEq] at h
      refine ⟨[], ?_⟩
      rw [← h.1]
      cases firstNo <;> rfl
    | cons child rest =>
      simp only [enumLoop, bne_iff_ne, ne_eq, ite_not] at h
      by_cases hitem : child.name = "item"
      · rw [if_pos hitem] at h
        cases h1 : itemContents f st child.nodeContents with
        | none => simp [h1] at h
        | some p =>
          obtain ⟨tmp, s1⟩ := p
          simp only [h1] at h
          cases firstNo with
          | none =>
            cases h2 : enumLoop f s1 none rest with
            | none => simp [h2] at h
            | some q =>
              obtain ⟨lis2, s2⟩ := q
              obtain ⟨bodies, hb⟩ := ih s1 none rest lis2 s2 h2
              simp only [h2, Option.some.injEq, Prod.mk.injEq] at h
              refine ⟨joinSpace tmp :: bodies, ?_⟩
              rw [← h.1, hb]
              rfl
          | some n =>
            cases h2 : enumLoop f s1 (some (n + 1)) rest with
            | none => simp [h2] at h
            | some q =>
              obtain ⟨lis2, s2⟩ := q
              obtain ⟨bodies, hb⟩ := ih s1 (some (n + 1)) rest lis2 s2 h2
              simp only [h2, Option.some.injEq, Prod.mk.injEq] at h
              refine ⟨joinSpace tmp :: bodies, ?_⟩
              rw [← h.1, hb]
              rfl
      · rw [if_neg hitem] at h
        exact ih st firstNo rest lis st' h

/-- The concrete enumerate contents produced by the upstream generator for
a glossed example list with an explicit counter reset of 1, holding one
item with text `a`. -/
def enumCexContents : List TexNode :=
  [TexNode.elem "def" [] [],
   TexNode.elem "labelenumi" [] [],
   TexNode.elem "setcounter"
     [TexNode.elem "BraceGroup" [] [TexNode.text "enumi"],
      TexNode.elem "BraceGroup" [] [TexNode.text "1"]] [],
   TexNode.elem "item" [] [TexNode.text "a"]]

/-- Enumerate contents that do not match the glossed-example shape (the
first element child is an item, not a counter definition) but whose third
element child is a counter reset of value 4. -/
def enumNonMatchingNumberedContents : List TexNode :=
  [TexNode.elem "item" [] [TexNode.text "a"],
   TexNode.elem "item" [] [TexNode.text "b"],
   TexNode.elem "setcounter"
     [TexNode.elem "BraceGroup" [] [TexNode.text "enumi"],
      TexNode.elem "BraceGroup" [] [TexNode.text "4"]] [],
   TexNode.elem "item" [] [TexNode.text "c"]]

/-- Glossed-example contents with a counter definition but no counter
reset. -/
def enumGlossedNoResetContents : List TexNode :=
  [TexNode.elem "def" [] [],
   TexNode.elem "labelenumi" [] [],
   TexNode.elem "item" [] [TexNode.text "a"]]

/-- A plain enumerate: items only. -/
def enumPlainContents : List TexNode :=
  [TexNode.elem "item" [] [TexNode.text "a"],
   TexNode.elem "item" [] [TexNode.text "b"]]

/-- Claim C8 counterexample: with a counter-reset child of value 1 the
first rendered number is `(2)`, one plus the reset value, not the reset
value itself; and a list that does not match the glossed-example shape
(its first element child is an item) but carries a counter reset as its
third element child is still rendered with parenthesized number prefixes
rather than as plain items. -/
theorem enumerate_seed_off_by_one_cex :
    ((enumerateHandler 20 initState enumCexContents).map (fun p => p.1) =
        some "<ol class=\"example\"><li>(2) a</li></ol>" ∧
      "<ol class=\"example\"><li>(2) a</li></ol>" ≠
        "<ol class=\"example\"><li>(1) a</li></ol>") ∧
    ((enumerateHandler 20 initState enumNonMatchingNumberedContents).map (fun p => p.1) =
        some "<ol><li>(5) a</li> <li>(6) b</li> <li>(7) c</li></ol>" ∧
      "<ol><li>(5) a</li> <li>(6) b</li> <li>(7) c</li></ol>" ≠
        "<ol><li>a</li> <li>b</li> <li>c</li></ol>") := by decide

/-- Claim C8 (amended): an enumerate whose first element child is a
counter-definition command is rendered as an `ol` carrying class
`example` whose rendered items are prefixed with parenthesized running
numbers; their first value is one plus the counter-reset value when the
third element child is a counter-reset command with a literal value, and
1 when it is not.  An enumerate whose first element child is not a
counter-definition command and whose third element child (when present)
is not a counter-reset command is rendered as a plain `ol` of unprefixed
`li` items with no class attribute. -/
theorem enumerate_rendering_amended :
    (∀ (fuel : Nat) (st : ConvState) (contents : List TexNode) (out : String)
       (st' : ConvState) (defN pre1 : TexNode) (items : List TexNode) (vs : String)
       (v : Nat) (arg0 : TexNode) (bgName : String) (bgRest : List TexNode),
      elemChildren contents =
        defN :: pre1 ::
          TexNode.elem "setcounter" [arg0, TexNode.elem bgName [] (TexNode.text vs :: bgRest)] [] ::
          items →
      defN.name = "def" →
      parseNat vs = some v →
      enumerateHandler fuel st contents = some (out, st') →
      ∃ bodies : List String,
        out = "<ol class=\"example\">" ++ joinSpace (numberedLis (v + 1) bodies) ++ "</ol>") ∧
    (∀ (fuel : Nat) (st : ConvState) (contents : List TexNode) (out : String)
       (st' : ConvState) (defN : TexNode) (restElems : List TexNode),
      elemChildren contents = defN :: restElems →
      defN.name = "def" →
      (match (defN :: restElems).get? 2 with
        | some c2 => c2.name == "setcounter"
        | none => false) = false →
      enumerateHandler fuel st contents = some (out, st') →
      ∃ bodies : List String,
        out = "<ol class=\"example\">" ++ joinSpace (numberedLis 1 bodies) ++ "</ol>") ∧
    (∀ (fuel : Nat) (st : ConvState) (contents : List TexNode) (out : String)
       (st' : ConvState) (c0 : TexNode) (restElems : List TexNode),
      elemChildren contents = c0 :: restElems →
      (c0.name == "def") = false →
      (match (c0 :: restElems).get? 2 with
        | some c2 => c2.name == "setcounter"
        | none => false) = false →
      enumerateHandler fuel st contents = some (out, st') →
      ∃ bodies : List String,
        out = "<ol>" ++
          joinSpace (bodies.map (fun b => "<li>" ++ b ++ "</li>")) ++ "</ol>") := by
  refine ⟨?_, ?_, ?_⟩
  · intro fuel st contents out st' defN pre1 items vs v arg0 bgName bgRest hel hdef hv h
    cases fuel with
    | zero => simp [enumerateHandler] at h
    | succ f =>
      have hbeqd : (defN.name == "def") = true := by simp [hdef]
      simp only [enumerateHandler, hel, List.head?_cons, hbeqd, if_true] at h
      simp only [List.get?, setcounterSeed, TexNode.nodeArgs, TexNode.nodeContents,
        List.head?_cons, hv, Option.map_some',
        show (("setcounter" : String) == "setcounter") = true from rfl, if_true] at h
      simp only [show ((TexNode.elem "setcounter"
          [arg0, TexNode.elem bgName [] (TexNode.text vs :: bgRest)] []).name ==
          "setcounter") = true from rfl, if_true] at h
      cases h2 : enumLoop f st (some (v + 1))
          (defN :: pre1 ::
            TexNode.elem "setcounter"
              [arg0, TexNode.elem bgName [] (TexNode.text vs :: bgRest)] [] :: items) with
      | none => simp [h2] at h
      | some q =>
        obtain ⟨lis, s1⟩ := q
        obtain ⟨bodies, hb⟩ := enumLoop_numbering f st (some (v + 1)) _ lis s1 h2
        simp only [h2, Option.some.injEq, Prod.mk.injEq] at h
        refine ⟨bodies, ?_⟩
        rw [← h.1, hb]
        rfl
  · intro fuel st contents out st' defN restElems hel hdef hset h
    cases fuel with
    | zero => simp [enumerateHandler] at h
    | succ f =>
      have hbeqd : (defN.name == "def") = true := by simp [hdef]
      simp only [enumerateHandler, hel, List.head?_cons, hbeqd, if_true] at h
      cases hg : (defN :: restElems).get? 2 with
      | none =>
        simp only [hg] at h
        cases h2 : enumLoop f st (some 1) (defN :: restElems) with
        | none => simp [h2] at h
        | some q =>
          obtain ⟨lis, s1⟩ := q
          obtain ⟨bodies, hb⟩ := enumLoop_numbering f st (some 1) _ lis s1 h2
          simp only [h2, Option.some.injEq, Prod.mk.injEq] at h
          refine ⟨bodies, ?_⟩
          rw [← h.1, hb]
          rfl
      | some c2 =>
        have hc2 : (c2.name == "setcounter") = false := by
          rw [hg] at hset
          simpa using hset
        simp only [hg, hc2, Bool.false_eq_true, if_false] at h
        cases h2 : enumLoop f st (some 1) (defN :: restElems) with
        | none => simp [h2] at h
        | some q =>
          obtain ⟨lis, s1⟩ := q
          obtain ⟨bodies, hb⟩ := enumLoop_numbering f st (some 1) _ lis s1 h2
          simp only [h2, Option.some.injEq, Prod.mk.injEq] at h
          refine ⟨bodies, ?_⟩
          rw [← h.1, hb]
          rfl
  · intro fuel st contents out st' c0 restElems hel hdef0 hset h
    cases fuel with
    | zero => simp [enumerateHandler] at h
    | succ f =>
      simp only [enumerateHandler, hel, List.head?_cons, hdef0, Bool.false_eq_true,
        if_false] at h
      cases hg : (c0 :: restElems).get? 2 with
      | none =>
        simp only [hg] at h
        cases h2 : enumLoop f st none (c0 :: restElems) with
        | none => simp [h2] at h
        | some q =>
          obtain ⟨lis, s1⟩ := q
          obtain ⟨bodies, hb⟩ := enumLoop_numbering f st none _ lis s1 h2
          simp only [h2, Option.some.injEq, Prod.mk.injEq] at h
          refine ⟨bodies, ?_⟩
          rw [← h.1, hb]
          rfl
      | some c2 =>
        have hc2 : (c2.name == "setcounter") = false := by
          rw [hg] at hset
          simpa using hset
        simp only [hg, hc2, Bool.false_eq_true, if_false] at h
        cases h2 : enumLoop f st none (c0 :: restElems) with
        | none => simp [h2] at h
        | some q =>
          obtain ⟨lis, s1⟩ := q
          obtain ⟨bodies, hb⟩ := enumLoop_numbering f st none _ lis s1 h2
          simp only [h2, Option.some.injEq, Prod.mk.injEq] at h
          refine ⟨bodies, ?_⟩
          rw [← h.1, hb]
          rfl

/-- Claim C8 witness: the three branches of the amended rendering law
applied to concrete lists — the generator shape with reset value 1, the
generator shape without a reset, and a plain two-item list. -/
theorem enumerate_rendering_amended_witness :
    (∃ bodies : List String, "<ol class=\"example\"><li>(2) a</li></ol>" =
      "<ol class=\"example\">" ++ joinSpace (numberedLis 2 bodies) ++ "</ol>") ∧
    (∃ bodies : List String, "<ol class=\"example\"><li>(1) a</li></ol>" =
      "<ol class=\"example\">" ++ joinSpace (numberedLis 1 bodies) ++ "</ol>") ∧
    (∃ bodies : List String, "<ol><li>a</li> <li>b</li></ol>" =
      "<ol>" ++ joinSpace (bodies.map (fun b => "<li>" ++ b ++ "</li>")) ++ "</ol>") :=
  ⟨enumerate_rendering_amended.1 20 initState enumCexContents
      "<ol class=\"example\"><li>(2) a</li></ol>" initState
      (TexNode.elem "def" [] []) (TexNode.elem "labelenumi" [] [])
      [TexNode.elem "item" [] [TexNode.text "a"]] "1" 1
      (TexNode.elem "BraceGroup" [] [TexNode.text "enumi"]) "BraceGroup" []
      rfl rfl (by decide) (by decide),
   enumerate_rendering_amended.2.1 20 initState enumGlossedNoResetContents
      "<ol class=\"example\"><li>(1) a</li></ol>" initState
      (TexNode.elem "def" [] [])
      [TexNode.elem "labelenumi" [] [], TexNode.elem "item" [] [TexNode.text "a"]]
      rfl rfl (by decide) (by decide),
   enumerate_rendering_amended.2.2 20 initState enumPlainContents
      "<ol><li>a</li> <li>b</li></ol>" initState
      (TexNode.elem "item" [] [TexNode.text "a"])
      [TexNode.elem "item" [] [TexNode.text "b"]]
      rfl (by decide) (by decide) (by decide)⟩
